import Mathlib

/-!
Shallow embedding of the merit-list core of the Merit-Web-Application
repository (src/src/components/MeritList.tsx, src/src/components/MarksEntry.tsx,
src/src/types/index.ts), together with proofs about the aggregation,
filtering, export and marks-persistence logic.

Numbers: `marks` and `max_marks` are integers in the data model (see the SQL
schema); percentages are modelled as exact rationals (ℚ), standing for the
JavaScript float `(totalMarks / maxMarks) * 100`.  Strings are Lean `String`s;
JavaScript truthiness of a string is `s ≠ ""`.
-/

/-- `Student` record from src/src/types/index.ts (timestamps and optional
contact fields dropped: no claim mentions them). -/
structure Student where
  id : String
  name : String
  roll_number : String
  semester : String
  batch : String
  deriving DecidableEq

/-- `Subject` record from src/src/types/index.ts. -/
structure Subject where
  id : String
  name : String
  code : String
  max_marks : Int
  semester : String
  deriving DecidableEq

/-- `Mark` record from src/src/types/index.ts. -/
structure Mark where
  id : String
  student_id : String
  subject_id : String
  marks : Int
  semester : String
  deriving DecidableEq

/-- One element of `MeritListEntry.subjects`: a `{ subject, marks }` pair. -/
structure SubjectMark where
  subject : Subject
  marks : Int
  deriving DecidableEq

/-- `MeritListEntry` from src/src/types/index.ts. -/
structure MeritListEntry where
  student : Student
  subjects : List SubjectMark
  total_marks : Int
  max_marks : Int
  percentage : ℚ
  rank : Nat
  deriving DecidableEq

/-- Subject lookup by id (the join key `marks.subject_id = subjects.id`). -/
def findSubject (subjects : List Subject) (sid : String) : Option Subject :=
  subjects.find? (fun sub => sub.id == sid)

/-- A row of the `marks` query `select('*, subjects!inner(*)')` in
`loadMeritList`: a mark together with its joined subject. -/
structure JoinedMark where
  mark : Mark
  subject : Subject
  deriving DecidableEq

/-- The inner join of `loadMeritList`'s marks query: marks whose `subject_id`
resolves to an existing subject, each paired with that subject; marks with a
dangling `subject_id` are dropped by the join. -/
def joinMarks (marks : List Mark) (subjects : List Subject) : List JoinedMark :=
  marks.filterMap (fun m => (findSubject subjects m.subject_id).map (fun sub => ⟨m, sub⟩))

/-- `studentMarks[student.id]?.[student.semester]` of `loadMeritList`
(MeritList.tsx lines 61-81).  The source builds a dictionary keyed by
`mark.student_id` then `mark.semester`, pushing rows in `marksData` order;
looking the dictionary up at `(s.id, s.semester)` yields exactly the rows of
`marksData` whose keys match, in `marksData` order, which is this filter. -/
def semesterMarks (marksData : List JoinedMark) (s : Student) : List SubjectMark :=
  (marksData.filter
      (fun jm => jm.mark.student_id == s.id && jm.mark.semester == s.semester)).map
    (fun jm => ⟨jm.subject, jm.mark.marks⟩)

/-- Body of the `studentsData.forEach` of `loadMeritList` (lines 83-94):
totals, percentage with the `maxMarks > 0` division guard, rank initialised
to 0. -/
def mkEntry (s : Student) (sm : List SubjectMark) : MeritListEntry :=
  let totalMarks : Int := (sm.map (fun x => x.marks)).sum
  let maxMarks : Int := (sm.map (fun x => x.subject.max_marks)).sum
  let percentage : ℚ :=
    if maxMarks > 0 then ((totalMarks : ℚ) / (maxMarks : ℚ)) * 100 else 0
  ⟨s, sm, totalMarks, maxMarks, percentage, 0⟩

/-- The unranked entry list of `loadMeritList` (lines 77-95): one entry per
student whose semester-scoped mark list is nonempty
(`if (!semesterMarks || semesterMarks.length === 0) return`). -/
def rawEntries (studentsData : List Student) (marksData : List JoinedMark) :
    List MeritListEntry :=
  studentsData.filterMap (fun s =>
    let sm := semesterMarks marksData s
    if sm.isEmpty then none else some (mkEntry s sm))

/-- The ordering used by `entries.sort((a, b) => b.percentage - a.percentage)`:
`a` may come before `b` exactly when the comparator is non-positive. -/
def entryGE (a b : MeritListEntry) : Prop :=
  b.percentage ≤ a.percentage

instance : DecidableRel entryGE :=
  fun a b => inferInstanceAs (Decidable (b.percentage ≤ a.percentage))

instance : IsTotal MeritListEntry entryGE :=
  ⟨fun a b => le_total b.percentage a.percentage⟩

instance : IsTrans MeritListEntry entryGE :=
  ⟨fun _ _ _ hab hbc => le_trans hbc hab⟩

/-- `entries.sort((a, b) => b.percentage - a.percentage)` (line 98):
JavaScript `Array.prototype.sort` is a stable sort, so it is modelled by the
stable insertion sort under the descending-percentage total preorder. -/
def sortEntries (l : List MeritListEntry) : List MeritListEntry :=
  l.insertionSort entryGE

/-- `entries.forEach((entry, index) => entry.rank = index + 1)` (lines 99-101),
threading the running index `k`. -/
def assignRanksFrom : Nat → List MeritListEntry → List MeritListEntry
  | _, [] => []
  | k, e :: es => { e with rank := k + 1 } :: assignRanksFrom (k + 1) es

def assignRanks (l : List MeritListEntry) : List MeritListEntry :=
  assignRanksFrom 0 l

/-- The pure computation of `loadMeritList` (MeritList.tsx lines 39-109),
taking the three fetched relations as inputs. -/
def loadMeritList (studentsData : List Student) (marks : List Mark)
    (subjects : List Subject) : List MeritListEntry :=
  assignRanks (sortEntries (rawEntries studentsData (joinMarks marks subjects)))

/-- The four filter controls feeding `filterMeritList`, each a raw string as
held in component state. -/
structure Filters where
  selectedSemester : String
  searchTerm : String
  minPercentage : String
  maxPercentage : String
  deriving DecidableEq

/-- The state with every control empty (`filterMeritList(entries, {})`). -/
def noFilters : Filters := ⟨"", "", "", ""⟩

/-- Digit run to a natural number. -/
def digitsVal (cs : List Char) : Nat :=
  cs.foldl (fun n c => 10 * n + (c.toNat - 48)) 0

/-- Models JavaScript `parseFloat` on the decimal literals relevant here:
leading whitespace, an optional sign, a digit run with an optional fractional
part; further characters are ignored.  Returns `none` where `parseFloat`
returns `NaN` (no parsable numeric prefix); exponent forms and `Infinity` are
not modelled (no claim involves them). -/
def parseFloat (s : String) : Option ℚ :=
  let cs := s.data.dropWhile (fun c => c == ' ' || c == '\t' || c == '\n' || c == '\r')
  let sign : ℚ := match cs with
    | '-' :: _ => -1
    | _ => 1
  let cs1 : List Char := match cs with
    | '-' :: t => t
    | '+' :: t => t
    | t => t
  let intPart := cs1.takeWhile Char.isDigit
  let rest := cs1.dropWhile Char.isDigit
  let fracPart : List Char := match rest with
    | '.' :: t => t.takeWhile Char.isDigit
    | _ => []
  if intPart.isEmpty && fracPart.isEmpty then none
  else some (sign * ((digitsVal intPart : ℚ) +
    (digitsVal fracPart : ℚ) / ((10 : ℚ) ^ fracPart.length)))

/-- JavaScript `hay.includes(needle)` on char lists: `matchFront n h` is
"`n` is an initial segment of `h`". -/
def matchFront : List Char → List Char → Bool
  | [], _ => true
  | _ :: _, [] => false
  | c :: cs, d :: ds => c == d && matchFront cs ds

def hasSub : List Char → List Char → Bool
  | needle, [] => matchFront needle []
  | needle, d :: ds => matchFront needle (d :: ds) || hasSub needle ds

/-- `hay.toLowerCase().includes(needle.toLowerCase())` as used in the search
filter (ASCII case folding, as `Char.toLower`). -/
def jsIncludes (hay needle : String) : Bool :=
  hasSub needle.toLower.data hay.toLower.data

/-- The `entry.percentage >= parseFloat(minPercentage)` test of line 126: a
JavaScript comparison against `NaN` is false. -/
def geParsed (p : ℚ) (bound : String) : Bool :=
  match parseFloat bound with
  | some q => decide (q ≤ p)
  | none => false

/-- The `entry.percentage <= parseFloat(maxPercentage)` test of line 130. -/
def leParsed (p : ℚ) (bound : String) : Bool :=
  match parseFloat bound with
  | some q => decide (p ≤ q)
  | none => false

/-- The filtering chain of `filterMeritList` (MeritList.tsx lines 111-131),
before the re-ranking pass: each predicate is applied only when its control
string is truthy (nonempty). -/
def filterSteps (meritList : List MeritListEntry) (f : Filters) :
    List MeritListEntry :=
  let l1 := if f.selectedSemester = "" then meritList
    else meritList.filter (fun e => e.student.semester == f.selectedSemester)
  let l2 := if f.searchTerm = "" then l1
    else l1.filter (fun e =>
      jsIncludes e.student.name f.searchTerm ||
      jsIncludes e.student.roll_number f.searchTerm)
  let l3 := if f.minPercentage = "" then l2
    else l2.filter (fun e => geParsed e.percentage f.minPercentage)
  let l4 := if f.maxPercentage = "" then l3
    else l3.filter (fun e => leParsed e.percentage f.maxPercentage)
  l4

/-- The conjunction of the active predicates of `filterSteps` as one boolean
test (an inactive control contributes `true`). -/
def activePred (f : Filters) (e : MeritListEntry) : Bool :=
  (if f.selectedSemester = "" then true
    else e.student.semester == f.selectedSemester) &&
  ((if f.searchTerm = "" then true
      else (jsIncludes e.student.name f.searchTerm ||
        jsIncludes e.student.roll_number f.searchTerm)) &&
    ((if f.minPercentage = "" then true
        else geParsed e.percentage f.minPercentage) &&
      (if f.maxPercentage = "" then true
        else leParsed e.percentage f.maxPercentage)))

/-- The value `filterMeritList` hands to `setFilteredList` (lines 111-139):
the filtered chain followed by the re-ranking pass
`filtered.forEach((entry, index) => entry.rank = index + 1)`. -/
def filterMeritList (meritList : List MeritListEntry) (f : Filters) :
    List MeritListEntry :=
  assignRanks (filterSteps meritList f)

/-- Walks a list assigning rank `k + 1, k + 2, …` to the elements satisfying
`p`, leaving the others untouched. -/
def rerankMatching (p : MeritListEntry → Bool) : Nat → List MeritListEntry →
    List MeritListEntry
  | _, [] => []
  | k, e :: es =>
    if p e then { e with rank := k + 1 } :: rerankMatching p (k + 1) es
    else e :: rerankMatching p k es

/-- The state of the `meritList` array after `filterMeritList` runs: the
re-ranking pass mutates the entry objects of the filtered sublist in place,
and those objects are shared (by reference) with `meritList`, so each entry
passing all active predicates receives its 1-based position within the
filtered sublist as its new rank. -/
def meritListAfterFilter (meritList : List MeritListEntry) (f : Filters) :
    List MeritListEntry :=
  rerankMatching (activePred f) 0 meritList

/-- One data row of `exportToExcel` (MeritList.tsx lines 185-195).  The
2-decimal display string for the percentage is abstracted to the exact value
(formatting is presentation only; no claim depends on it). -/
structure ExcelRow where
  rank : Nat
  name : String
  roll_number : String
  semester : String
  batch : String
  total_marks : Int
  max_marks : Int
  percentage : ℚ
  deriving DecidableEq

/-- `filteredList.map(entry => ({...}))` of `exportToExcel`: one row per
entry, in input order. -/
def exportToExcel (filteredList : List MeritListEntry) : List ExcelRow :=
  filteredList.map (fun e =>
    ⟨e.rank, e.student.name, e.student.roll_number, e.student.semester,
      e.student.batch, e.total_marks, e.max_marks, e.percentage⟩)

/-- One printed entry line of `exportToPDF` (lines 168-180), tagged with the
page it lands on and its vertical position. -/
structure PdfLine where
  page : Nat
  y : Int
  rank : Nat
  name : String
  roll_number : String
  total_marks : Int
  max_marks : Int
  percentage : ℚ
  deriving DecidableEq

/-- The `filteredList.slice(0, 30).forEach` loop of `exportToPDF`: prints an
entry at the running `y`, advances by 8, and starts a new page at `y = 20`
once `y` exceeds 280.  Name is truncated to 20 characters
(`entry.student.name.substring(0, 20)`). -/
def pdfEntryLines : Int → Nat → List MeritListEntry → List PdfLine
  | _, _, [] => []
  | y, pg, e :: es =>
    let line : PdfLine :=
      ⟨pg, y, e.rank, e.student.name.take 20, e.student.roll_number,
        e.total_marks, e.max_marks, e.percentage⟩
    let y2 := y + 8
    if y2 > 280 then line :: pdfEntryLines 20 (pg + 1) es
    else line :: pdfEntryLines y2 pg es

/-- The entry lines of `exportToPDF` (lines 141-183): the title and column
headers occupy the top of page 0 (`y` reaches 60 when a semester subtitle is
shown, 50 otherwise), then at most the first 30 entries are printed. -/
def exportToPDF (selectedSemester : String) (filteredList : List MeritListEntry) :
    List PdfLine :=
  pdfEntryLines (if selectedSemester = "" then 50 else 60) 0 (filteredList.take 30)

/-- `Object.entries(marksData).filter(([_, marks]) => marks > 0)` of
`handleMarksSubmit` (MarksEntry.tsx lines 95-96): the entered per-subject
values kept for insertion. -/
def marksToInsert (marksData : List (String × Int)) : List (String × Int) :=
  marksData.filter (fun kv => kv.2 > 0)

/-- `handleMarksSubmit` (MarksEntry.tsx lines 82-120) as a transition on the
persisted `marks` table: delete every row matching
`(student_id, semester) = (selectedStudent.id, selectedStudent.semester)`,
then insert one row per kept entered value, with the student's semester
stamped on each row.  The database generates fresh row ids, modelled by
`newId` applied to the insertion index. -/
def handleMarksSubmit (table : List Mark) (s : Student)
    (marksData : List (String × Int)) (newId : Nat → String) : List Mark :=
  let remaining := table.filter
    (fun m => !(m.student_id == s.id && m.semester == s.semester))
  let inserted := (marksToInsert marksData).enum.map
    (fun p => Mark.mk (newId p.1) s.id p.2.1 p.2.2 s.semester)
  remaining ++ inserted

/-- Forgets the (mutable) rank field, keeping every other field. -/
def eraseRank (e : MeritListEntry) : MeritListEntry :=
  { e with rank := 0 }

/-! Concrete fixtures used by counterexamples and witnesses. -/

def stuA : Student := ⟨"s1", "Alice", "R1", "SemA", "B1"⟩

def stuB : Student := ⟨"s2", "Bob", "R2", "SemB", "B1"⟩

def subj1 : Subject := ⟨"sub1", "Math", "M1", 100, "SemA"⟩

/-- A subject whose stored semester differs from the student's. -/
def subjX : Subject := ⟨"subX", "Physics", "P1", 100, "SemB"⟩

def entryA : MeritListEntry := ⟨stuA, [], 70, 100, 70, 1⟩

def entryB : MeritListEntry := ⟨stuB, [], 60, 100, 60, 2⟩

/-- A mark exceeding its subject's `max_marks` (not prevented at the data
layer). -/
def markOver : Mark := ⟨"m1", "s1", "sub1", 150, "SemA"⟩

def mark70 : Mark := ⟨"m2", "s1", "sub1", 70, "SemA"⟩

/-- A mark recorded under the student's semester against a subject tagged for
a different semester. -/
def markCross : Mark := ⟨"mX", "s1", "subX", 80, "SemA"⟩

def entry70 : MeritListEntry := ⟨stuA, [⟨subj1, 70⟩], 70, 100, 70, 1⟩

/-- The aggregation result for `stuA` with the cross-semester mark
`markCross` against `subjX`. -/
def entryCross : MeritListEntry := ⟨stuA, [⟨subjX, 80⟩], 80, 100, 80, 1⟩

/-- The aggregation result for `stuA` when the recorded mark exceeds the
subject's maximum. -/
def entryOver : MeritListEntry := ⟨stuA, [⟨subj1, 150⟩], 150, 100, 150, 1⟩

/-- A semester-only predicate set. -/
def fSemB : Filters := ⟨"SemB", "", "", ""⟩

/-- A predicate set whose minimum-percentage bound is non-numeric. -/
def fMinBad : Filters := ⟨"", "", "abc", ""⟩

/-- A predicate set whose maximum-percentage bound is non-numeric. -/
def fMaxBad : Filters := ⟨"", "", "", "xy"⟩

/-! ### Helper lemmas about rank assignment -/

theorem assignRanksFrom_length (k : Nat) (l : List MeritListEntry) :
    (assignRanksFrom k l).length = l.length := by
  induction l generalizing k with
  | nil => rfl
  | cons e es ih => simp [assignRanksFrom, ih]

theorem map_assignRanksFrom {β : Type} (f : MeritListEntry → β)
    (hf : ∀ e r, f { e with rank := r } = f e) (k : Nat) (l : List MeritListEntry) :
    (assignRanksFrom k l).map f = l.map f := by
  induction l generalizing k with
  | nil => rfl
  | cons e es ih => simp [assignRanksFrom, hf, ih]

theorem assignRanksFrom_rank (k : Nat) (l : List MeritListEntry) (i : Nat)
    (h : i < (assignRanksFrom k l).length) :
    ((assignRanksFrom k l).get ⟨i, h⟩).rank = k + i + 1 := by
  induction l generalizing k i with
  | nil => simp [assignRanksFrom] at h
  | cons e es ih =>
    cases i with
    | zero => rfl
    | succ j =>
      have h2 : j < (assignRanksFrom (k + 1) es).length := by
        have h3 := h
        simp [assignRanksFrom, assignRanksFrom_length] at h3 ⊢
        omega
      have step : ((assignRanksFrom k (e :: es)).get ⟨j + 1, h⟩).rank
          = ((assignRanksFrom (k + 1) es).get ⟨j, h2⟩).rank := rfl
      rw [step, ih (k + 1) j h2]
      omega

theorem assignRanksFrom_of_seq (k : Nat) (l : List MeritListEntry)
    (h : ∀ i (hi : i < l.length), (l.get ⟨i, hi⟩).rank = k + i + 1) :
    assignRanksFrom k l = l := by
  induction l generalizing k with
  | nil => rfl
  | cons e es ih =>
    have h0 : e.rank = k + 1 := by simpa using h 0 (by simp)
    have hrest : ∀ i (hi : i < es.length), (es.get ⟨i, hi⟩).rank = (k + 1) + i + 1 := by
      intro i hi
      have h2 := h (i + 1) (by simpa using Nat.succ_lt_succ hi)
      have h3 : (es.get ⟨i, hi⟩).rank = k + (i + 1) + 1 := h2
      omega
    rw [assignRanksFrom, ih (k + 1) hrest]
    cases e with
    | mk st sb t m p r =>
      simp only [MeritListEntry.rank] at h0
      simp [h0]

theorem filter_map_eraseRank_assignRanksFrom (q : MeritListEntry → Bool)
    (hq : ∀ e r, q { e with rank := r } = q e) (k : Nat) (l : List MeritListEntry) :
    ((assignRanksFrom k l).filter q).map eraseRank = (l.filter q).map eraseRank := by
  induction l generalizing k with
  | nil => rfl
  | cons e es ih =>
    by_cases he : q e
    · simp [assignRanksFrom, List.filter_cons, hq, he, ih, eraseRank]
    · simp [assignRanksFrom, List.filter_cons, hq, he, ih]

/-! ### Stability of the percentage sort -/

theorem filter_orderedInsert_neg (q : MeritListEntry → Bool) (a : MeritListEntry)
    (L : List MeritListEntry) (h : q a = false) :
    (L.orderedInsert entryGE a).filter q = L.filter q := by
  induction L with
  | nil => simp [List.orderedInsert, List.filter_cons, h]
  | cons b bs ih =>
    by_cases hab : entryGE a b
    · simp [List.orderedInsert, hab, List.filter_cons, h]
    · simp only [List.orderedInsert, if_neg hab, List.filter_cons, ih]

theorem filter_percEq_orderedInsert (p : ℚ) (a : MeritListEntry)
    (L : List MeritListEntry) (ha : a.percentage = p) :
    (L.orderedInsert entryGE a).filter (fun e => e.percentage == p)
      = a :: L.filter (fun e => e.percentage == p) := by
  induction L with
  | nil => simp [List.orderedInsert, List.filter_cons, ha]
  | cons b bs ih =>
    by_cases hab : entryGE a b
    · simp [List.orderedInsert, hab, List.filter_cons, ha]
    · have hb : (b.percentage == p) = false := by
        simp only [beq_eq_false_iff_ne]
        intro hbp
        exact hab (by simp [entryGE, hbp, ha])
      simp only [List.orderedInsert, if_neg hab, List.filter_cons, hb, if_neg, ih]
      simp

theorem filter_percEq_sortEntries (p : ℚ) (l : List MeritListEntry) :
    (sortEntries l).filter (fun e => e.percentage == p)
      = l.filter (fun e => e.percentage == p) := by
  induction l with
  | nil => rfl
  | cons a as ih =>
    have step : sortEntries (a :: as) = (sortEntries as).orderedInsert entryGE a := rfl
    rw [step]
    by_cases ha : a.percentage = p
    · rw [filter_percEq_orderedInsert p a _ ha, ih, List.filter_cons]
      simp [ha]
    · rw [filter_orderedInsert_neg _ _ _ (by simp [ha]), ih, List.filter_cons]
      simp [ha]

/-! ### The filter chain as a single conjunction of active predicates -/

theorem ifFilter_eq (c : Prop) [Decidable c] (p : MeritListEntry → Bool)
    (l : List MeritListEntry) :
    (if c then l else l.filter p) = l.filter (fun e => if c then true else p e) := by
  by_cases h : c <;> simp [h]

theorem filterSteps_eq (l : List MeritListEntry) (f : Filters) :
    filterSteps l f = l.filter (activePred f) := by
  have B : ∀ a b c d : Bool, (((d && c) && b) && a) = (a && (b && (c && d))) := by decide
  simp only [filterSteps]
  rw [ifFilter_eq, ifFilter_eq, ifFilter_eq, ifFilter_eq,
    List.filter_filter, List.filter_filter, List.filter_filter]
  exact List.filter_congr (fun e he => by simpa [activePred] using B _ _ _ _)

/-! ### Membership helpers for the aggregation pipeline -/

theorem mem_rawEntries {e : MeritListEntry} {st : List Student} {md : List JoinedMark} :
    e ∈ rawEntries st md ↔
      ∃ s ∈ st, semesterMarks md s ≠ [] ∧ e = mkEntry s (semesterMarks md s) := by
  simp only [rawEntries, List.mem_filterMap]
  constructor
  · rintro ⟨s, hs, hsome⟩
    by_cases hemp : (semesterMarks md s).isEmpty
    · simp [hemp] at hsome
    · refine ⟨s, hs, ?_, ?_⟩
      · intro hnil
        exact hemp (by simp [hnil])
      · simp only [hemp, Bool.false_eq_true, if_false, Option.some.injEq] at hsome
        exact hsome.symm
  · rintro ⟨s, hs, hne, rfl⟩
    refine ⟨s, hs, ?_⟩
    have hemp : (semesterMarks md s).isEmpty = false := by
      cases h : semesterMarks md s with
      | nil => exact absurd h hne
      | cons a as => rfl
    simp [hemp]

theorem map_student_rawEntries_mem {st : List Student} {md : List JoinedMark}
    {s : Student} :
    s ∈ (rawEntries st md).map (fun e => e.student) ↔
      s ∈ st ∧ semesterMarks md s ≠ [] := by
  rw [List.mem_map]
  constructor
  · rintro ⟨e, he, rfl⟩
    obtain ⟨s', hs', hne, rfl⟩ := mem_rawEntries.mp he
    exact ⟨hs', hne⟩
  · rintro ⟨hs, hne⟩
    exact ⟨mkEntry s (semesterMarks md s),
      mem_rawEntries.mpr ⟨s, hs, hne, rfl⟩, rfl⟩

theorem map_student_loadMeritList_perm (st : List Student) (mk : List Mark)
    (sb : List Subject) :
    ((loadMeritList st mk sb).map (fun e => e.student)).Perm
      ((rawEntries st (joinMarks mk sb)).map (fun e => e.student)) := by
  unfold loadMeritList assignRanks
  rw [map_assignRanksFrom (fun e => e.student) (fun _ _ => rfl)]
  exact (List.perm_insertionSort entryGE _).map _

theorem mem_student_loadMeritList {st : List Student} {mk : List Mark}
    {sb : List Subject} {s : Student} :
    s ∈ (loadMeritList st mk sb).map (fun e => e.student) ↔
      s ∈ st ∧ semesterMarks (joinMarks mk sb) s ≠ [] := by
  rw [(map_student_loadMeritList_perm st mk sb).mem_iff, map_student_rawEntries_mem]

theorem semesterMarks_join_ne_nil {mk : List Mark} {sb : List Subject} {s : Student} :
    semesterMarks (joinMarks mk sb) s ≠ [] ↔
      ∃ m ∈ mk, m.student_id = s.id ∧ m.semester = s.semester ∧
        (findSubject sb m.subject_id).isSome = true := by
  constructor
  · intro h
    obtain ⟨x, hx⟩ := List.exists_mem_of_ne_nil _ h
    simp only [semesterMarks, List.mem_map, List.mem_filter] at hx
    obtain ⟨jm, ⟨hjm, hp⟩, rfl⟩ := hx
    simp only [joinMarks, List.mem_filterMap] at hjm
    obtain ⟨m, hm, hsome⟩ := hjm
    cases hfs : findSubject sb m.subject_id with
    | none => simp [hfs] at hsome
    | some sub =>
      simp only [hfs, Option.map_some', Option.some.injEq] at hsome
      subst hsome
      simp only [Bool.and_eq_true, beq_iff_eq] at hp
      exact ⟨m, hm, hp.1, hp.2, by simp [hfs]⟩
  · rintro ⟨m, hm, hid, hsem, hsome⟩
    rw [Option.isSome_iff_exists] at hsome
    obtain ⟨sub, hsub⟩ := hsome
    have hmem : (⟨sub, m.marks⟩ : SubjectMark) ∈ semesterMarks (joinMarks mk sb) s := by
      simp only [semesterMarks, List.mem_map, List.mem_filter]
      refine ⟨⟨m, sub⟩, ⟨?_, ?_⟩, rfl⟩
      · simp only [joinMarks, List.mem_filterMap]
        exact ⟨m, hm, by simp [hsub]⟩
      · simp [hid, hsem]
    exact List.ne_nil_of_mem hmem

theorem mem_loadMeritList {e : MeritListEntry} {st : List Student} {mk : List Mark}
    {sb : List Subject} (he : e ∈ loadMeritList st mk sb) :
    ∃ s ∈ st, semesterMarks (joinMarks mk sb) s ≠ [] ∧
      eraseRank e = eraseRank (mkEntry s (semesterMarks (joinMarks mk sb) s)) := by
  unfold loadMeritList assignRanks at he
  have h1 : eraseRank e ∈
      (assignRanksFrom 0 (sortEntries (rawEntries st (joinMarks mk sb)))).map eraseRank :=
    List.mem_map_of_mem _ he
  rw [map_assignRanksFrom eraseRank (fun _ _ => rfl)] at h1
  obtain ⟨e', he', heq⟩ := List.mem_map.mp h1
  have he'' : e' ∈ rawEntries st (joinMarks mk sb) :=
    (List.mem_insertionSort entryGE).mp he'
  obtain ⟨s, hs, hne, rfl⟩ := mem_rawEntries.mp he''
  exact ⟨s, hs, hne, heq.symm⟩

/-! ### The semester-scoped mark list in terms of the raw marks relation -/

theorem semesterMarks_joinMarks_eq (mk : List Mark) (sb : List Subject) (s : Student) :
    semesterMarks (joinMarks mk sb) s =
      (mk.filter (fun m => m.student_id == s.id && m.semester == s.semester)).filterMap
        (fun m => (findSubject sb m.subject_id).map
          (fun sub => SubjectMark.mk sub m.marks)) := by
  induction mk with
  | nil => rfl
  | cons m ms ih =>
    by_cases hcm : (m.student_id == s.id && m.semester == s.semester) = true <;>
      cases hfs : findSubject sb m.subject_id <;>
      simp [semesterMarks, joinMarks, List.filterMap_cons, List.filter_cons, hfs, hcm] <;>
      simpa [semesterMarks, joinMarks] using ih

theorem map_marks_filterMap (sb : List Subject) (l : List Mark) :
    ((l.filterMap (fun m => (findSubject sb m.subject_id).map
        (fun sub => SubjectMark.mk sub m.marks))).map (fun x => x.marks))
      = l.filterMap (fun m => (findSubject sb m.subject_id).map
          (fun _ => m.marks)) := by
  induction l with
  | nil => rfl
  | cons m ms ih =>
    cases hg : findSubject sb m.subject_id <;>
      simp [List.filterMap_cons, hg, ih]

theorem map_maxMarks_filterMap (sb : List Subject) (l : List Mark) :
    ((l.filterMap (fun m => (findSubject sb m.subject_id).map
        (fun sub => SubjectMark.mk sub m.marks))).map (fun x => x.subject.max_marks))
      = l.filterMap (fun m => (findSubject sb m.subject_id).map
          (fun sub => sub.max_marks)) := by
  induction l with
  | nil => rfl
  | cons m ms ih =>
    cases hg : findSubject sb m.subject_id <;>
      simp [List.filterMap_cons, hg, ih]

/-! ### Claim theorems -/

/-- C2: for every input, the merit aggregation output is sorted non-increasing
by percentage, entries with equal percentage retain their relative input order
(stable tie-break), and each entry's rank equals its 1-based index in the
sorted sequence. -/
theorem merit_list_sorted_stable_ranked (st : List Student) (mk : List Mark)
    (sb : List Subject) (p : ℚ) :
    List.Sorted (fun a b : ℚ => b ≤ a)
      ((loadMeritList st mk sb).map (fun e => e.percentage)) ∧
    ((loadMeritList st mk sb).filter (fun e => e.percentage == p)).map eraseRank
      = ((rawEntries st (joinMarks mk sb)).filter
          (fun e => e.percentage == p)).map eraseRank ∧
    ∀ i (h : i < (loadMeritList st mk sb).length),
      ((loadMeritList st mk sb).get ⟨i, h⟩).rank = i + 1 := by
  refine ⟨?_, ?_, ?_⟩
  · unfold loadMeritList assignRanks
    rw [map_assignRanksFrom (fun e => e.percentage) (fun _ _ => rfl)]
    have hs : List.Sorted entryGE (sortEntries (rawEntries st (joinMarks mk sb))) :=
      List.sorted_insertionSort entryGE _
    exact List.Pairwise.map (R := entryGE) (S := fun a b : ℚ => b ≤ a)
      (fun e => e.percentage) (fun a b hab => hab) hs
  · unfold loadMeritList assignRanks
    rw [filter_map_eraseRank_assignRanksFrom (fun e => e.percentage == p)
      (fun _ _ => rfl) 0, filter_percEq_sortEntries]
  · intro i h
    unfold loadMeritList assignRanks at h ⊢
    simpa using assignRanksFrom_rank 0 _ i h

theorem merit_list_sorted_stable_ranked_witness :
    List.Sorted (fun a b : ℚ => b ≤ a)
      ((loadMeritList [stuA] [mark70] [subj1]).map (fun e => e.percentage)) ∧
    ((loadMeritList [stuA] [mark70] [subj1]).get ⟨0, by decide⟩).rank = 0 + 1 :=
  ⟨(merit_list_sorted_stable_ranked [stuA] [mark70] [subj1] 70).1,
    (merit_list_sorted_stable_ranked [stuA] [mark70] [subj1] 70).2.2 0 (by decide)⟩

/-- C5: the aggregation yields exactly one entry per student with at least one
mark contributing to their own semester; dangling-subject marks never
contribute (a student whose only marks are dangling is excluded), and an
empty student set yields an empty sequence. -/
theorem merit_entries_exactly_marked_students (st : List Student) (mk : List Mark)
    (sb : List Subject) (s : Student) :
    loadMeritList [] mk sb = [] ∧
    (s ∈ (loadMeritList st mk sb).map (fun e => e.student) ↔
      s ∈ st ∧ semesterMarks (joinMarks mk sb) s ≠ []) ∧
    (semesterMarks (joinMarks mk sb) s ≠ [] ↔
      ∃ m ∈ mk, m.student_id = s.id ∧ m.semester = s.semester ∧
        (findSubject sb m.subject_id).isSome = true) :=
  ⟨rfl, mem_student_loadMeritList, semesterMarks_join_ne_nil⟩

theorem sortEntries_singleton (e : MeritListEntry) : sortEntries [e] = [e] := rfl

theorem mkEntry_cross_eval :
    mkEntry stuA [⟨subjX, 80⟩] = ⟨stuA, [⟨subjX, 80⟩], 80, 100, 80, 0⟩ := by
  simp only [mkEntry, subjX, List.map_cons, List.map_nil, List.sum_cons,
    List.sum_nil]
  norm_num

theorem loadMeritList_cross_eval :
    loadMeritList [stuA] [markCross] [subjX] = [entryCross] := by
  have hsem : semesterMarks (joinMarks [markCross] [subjX]) stuA = [⟨subjX, 80⟩] := by
    decide
  have hraw : rawEntries [stuA] (joinMarks [markCross] [subjX])
      = [mkEntry stuA [⟨subjX, 80⟩]] := by
    simp [rawEntries, hsem]
  unfold loadMeritList
  rw [hraw, mkEntry_cross_eval, sortEntries_singleton]
  rfl

/-- C6: each entry's totals sum exactly the marks whose own semester field
equals the student's semester (with existing subjects); the mark's semester,
not the subject's, decides inclusion, as the concrete cross-semester scenario
shows. -/
theorem totals_scoped_by_mark_semester (st : List Student) (mk : List Mark)
    (sb : List Subject) :
    (∀ e ∈ loadMeritList st mk sb,
      e.total_marks = ((mk.filter (fun m => m.student_id == e.student.id &&
          m.semester == e.student.semester)).filterMap
            (fun m => (findSubject sb m.subject_id).map (fun _ => m.marks))).sum ∧
      e.max_marks = ((mk.filter (fun m => m.student_id == e.student.id &&
          m.semester == e.student.semester)).filterMap
            (fun m => (findSubject sb m.subject_id).map
              (fun sub => sub.max_marks))).sum) ∧
    (loadMeritList [stuA] [markCross] [subjX] = [entryCross] ∧
      subjX.semester ≠ stuA.semester) := by
  constructor
  · intro e he
    obtain ⟨s, hs, hne, heq⟩ := mem_loadMeritList he
    have hstu : e.student = s := congrArg MeritListEntry.student heq
    have hT : e.total_marks =
        ((semesterMarks (joinMarks mk sb) s).map (fun x => x.marks)).sum :=
      congrArg MeritListEntry.total_marks heq
    have hM : e.max_marks =
        ((semesterMarks (joinMarks mk sb) s).map (fun x => x.subject.max_marks)).sum :=
      congrArg MeritListEntry.max_marks heq
    rw [hstu, hT, hM, semesterMarks_joinMarks_eq]
    constructor
    · rw [map_marks_filterMap]
    · rw [map_maxMarks_filterMap]
  · exact ⟨loadMeritList_cross_eval, by decide⟩

theorem totals_scoped_by_mark_semester_witness :
    entryCross.total_marks = (([markCross].filter
        (fun m => m.student_id == entryCross.student.id &&
          m.semester == entryCross.student.semester)).filterMap
      (fun m => (findSubject [subjX] m.subject_id).map (fun _ => m.marks))).sum :=
  ((totals_scoped_by_mark_semester [stuA] [markCross] [subjX]).1 entryCross
    (by rw [loadMeritList_cross_eval]; exact List.mem_singleton.mpr rfl)).1

theorem mkEntry_over_eval :
    mkEntry stuA [⟨subj1, 150⟩] = ⟨stuA, [⟨subj1, 150⟩], 150, 100, 150, 0⟩ := by
  simp only [mkEntry, subj1, List.map_cons, List.map_nil, List.sum_cons,
    List.sum_nil]
  norm_num

theorem loadMeritList_over_eval :
    loadMeritList [stuA] [markOver] [subj1] = [entryOver] := by
  have hsem : semesterMarks (joinMarks [markOver] [subj1]) stuA = [⟨subj1, 150⟩] := by
    decide
  have hraw : rawEntries [stuA] (joinMarks [markOver] [subj1])
      = [mkEntry stuA [⟨subj1, 150⟩]] := by
    simp [rawEntries, hsem]
  unfold loadMeritList
  rw [hraw, mkEntry_over_eval, sortEntries_singleton]
  rfl

theorem mkEntry_70_eval :
    mkEntry stuA [⟨subj1, 70⟩] = ⟨stuA, [⟨subj1, 70⟩], 70, 100, 70, 0⟩ := by
  simp only [mkEntry, subj1, List.map_cons, List.map_nil, List.sum_cons,
    List.sum_nil]
  norm_num

theorem loadMeritList_70_eval :
    loadMeritList [stuA] [mark70] [subj1] = [entry70] := by
  have hsem : semesterMarks (joinMarks [mark70] [subj1]) stuA = [⟨subj1, 70⟩] := by
    decide
  have hraw : rawEntries [stuA] (joinMarks [mark70] [subj1])
      = [mkEntry stuA [⟨subj1, 70⟩]] := by
    simp [rawEntries, hsem]
  unfold loadMeritList
  rw [hraw, mkEntry_70_eval, sortEntries_singleton]
  rfl

/-- C4 counterexample: with a recorded mark of 150 against a subject whose
maximum is 100 (nothing in the aggregation prevents this), the returned entry
has `max_marks > 0` but `percentage = 150 > 100`, so the bound does not hold
for every input. -/
theorem percentage_bounds_counterexample :
    loadMeritList [stuA] [markOver] [subj1] = [entryOver] ∧
    0 < entryOver.max_marks ∧ (100 : ℚ) < entryOver.percentage :=
  ⟨loadMeritList_over_eval, by decide, by norm_num [entryOver]⟩

/-- C4 (amended): `percentage = 0` when `max_marks = 0` holds unconditionally
(the zero denominator is a defined 0% case, not an error); and whenever every
mark is nonnegative and no mark exceeds its resolved subject's `max_marks`,
every returned entry satisfies `0 ≤ percentage ≤ 100` when `max_marks > 0`. -/
theorem percentage_bounds_of_valid_marks (st : List Student) (mk : List Mark)
    (sb : List Subject) :
    (∀ e ∈ loadMeritList st mk sb, e.max_marks = 0 → e.percentage = 0) ∧
    ((∀ m ∈ mk, 0 ≤ m.marks) →
      (∀ m ∈ mk, ∀ sub ∈ sb, findSubject sb m.subject_id = some sub →
        m.marks ≤ sub.max_marks) →
      ∀ e ∈ loadMeritList st mk sb,
        0 < e.max_marks → 0 ≤ e.percentage ∧ e.percentage ≤ 100) := by
  constructor
  · intro e he h0
    obtain ⟨s, hs, hne, heq⟩ := mem_loadMeritList he
    set sm := semesterMarks (joinMarks mk sb) s with hsm
    set T : Int := (sm.map (fun x => x.marks)).sum with hTdef
    set M : Int := (sm.map (fun x => x.subject.max_marks)).sum with hMdef
    have hM : e.max_marks = M := congrArg MeritListEntry.max_marks heq
    have hP : e.percentage = (if M > 0 then ((T : ℚ) / (M : ℚ)) * 100 else 0) :=
      congrArg MeritListEntry.percentage heq
    rw [hM] at h0
    rw [hP, if_neg (by omega)]
  · intro h1 h2 e he hpos
    obtain ⟨s, hs, hne, heq⟩ := mem_loadMeritList he
    set sm := semesterMarks (joinMarks mk sb) s with hsm
    set T : Int := (sm.map (fun x => x.marks)).sum with hTdef
    set M : Int := (sm.map (fun x => x.subject.max_marks)).sum with hMdef
    have hM : e.max_marks = M := congrArg MeritListEntry.max_marks heq
    have hP : e.percentage = (if M > 0 then ((T : ℚ) / (M : ℚ)) * 100 else 0) :=
      congrArg MeritListEntry.percentage heq
    have hbound : ∀ x ∈ sm, 0 ≤ x.marks ∧ x.marks ≤ x.subject.max_marks := by
      intro x hx
      rw [hsm] at hx
      simp only [semesterMarks, List.mem_map, List.mem_filter] at hx
      obtain ⟨jm, ⟨hjm, hkey⟩, rfl⟩ := hx
      simp only [joinMarks, List.mem_filterMap] at hjm
      obtain ⟨m, hm, hsome⟩ := hjm
      cases hfs : findSubject sb m.subject_id with
      | none => rw [hfs] at hsome; simp at hsome
      | some sub =>
        rw [hfs] at hsome
        simp only [Option.map_some', Option.some.injEq] at hsome
        subst hsome
        have hsub_mem : sub ∈ sb := List.mem_of_find?_eq_some hfs
        exact ⟨h1 m hm, h2 m hm sub hsub_mem hfs⟩
    have hT0 : (0 : Int) ≤ T := by
      rw [hTdef]
      apply List.sum_nonneg
      intro a ha
      obtain ⟨x, hx, rfl⟩ := List.mem_map.mp ha
      exact (hbound x hx).1
    have hTM : T ≤ M := by
      rw [hTdef, hMdef]
      exact List.sum_le_sum (fun x hx => (hbound x hx).2)
    rw [hM] at hpos
    rw [hP, if_pos hpos]
    have hMq : (0 : ℚ) < (M : ℚ) := by exact_mod_cast hpos
    constructor
    · apply mul_nonneg
      · apply div_nonneg
        · exact_mod_cast hT0
        · exact le_of_lt hMq
      · norm_num
    · have hdiv : (T : ℚ) / (M : ℚ) ≤ 1 := by
        rw [div_le_one hMq]
        exact_mod_cast hTM
      calc (T : ℚ) / (M : ℚ) * 100 ≤ 1 * 100 :=
            mul_le_mul_of_nonneg_right hdiv (by norm_num)
        _ = 100 := by norm_num

theorem percentage_bounds_witness :
    (entry70.max_marks = 0 → entry70.percentage = 0) ∧
    (0 < entry70.max_marks → 0 ≤ entry70.percentage ∧ entry70.percentage ≤ 100) :=
  ⟨(percentage_bounds_of_valid_marks [stuA] [mark70] [subj1]).1 entry70
      (by rw [loadMeritList_70_eval]; exact List.mem_singleton.mpr rfl),
    (percentage_bounds_of_valid_marks [stuA] [mark70] [subj1]).2 (by decide)
      (by decide) entry70
      (by rw [loadMeritList_70_eval]; exact List.mem_singleton.mpr rfl)⟩

/-- C1 counterexample: filtering the ranked list `[entryA(rank 1, SemA),
entryB(rank 2, SemB)]` by semester SemB returns the surviving entry with rank
renumbered to 1, not with its original rank 2: the code has an explicit
re-ranking pass. -/
theorem filter_keeps_rank_counterexample :
    (filterMeritList [entryA, entryB] fSemB).map (fun e => e.rank) = [1] ∧
    entryB.rank = 2 ∧
    filterMeritList [entryA, entryB] fSemB ≠ [entryB] := by decide

/-- C1 (amended): `filterMeritList` returns the subset of entries matching all
predicates in the same relative order as the input, but with ranks renumbered
to 1-based positions within the filtered subset (not the original ranks). -/
theorem filter_subset_in_order_reranked (l : List MeritListEntry) (f : Filters) :
    (filterMeritList l f).map eraseRank = (l.filter (activePred f)).map eraseRank ∧
    ∀ i (h : i < (filterMeritList l f).length),
      ((filterMeritList l f).get ⟨i, h⟩).rank = i + 1 := by
  constructor
  · unfold filterMeritList assignRanks
    rw [map_assignRanksFrom eraseRank (fun _ _ => rfl), filterSteps_eq]
  · intro i h
    unfold filterMeritList assignRanks at h ⊢
    simpa using assignRanksFrom_rank 0 _ i h

theorem filter_subset_in_order_reranked_witness :
    (filterMeritList [entryA, entryB] fSemB).map eraseRank
      = ([entryA, entryB].filter (activePred fSemB)).map eraseRank ∧
    ((filterMeritList [entryA, entryB] fSemB).get ⟨0, by decide⟩).rank = 0 + 1 :=
  ⟨(filter_subset_in_order_reranked [entryA, entryB] fSemB).1,
    (filter_subset_in_order_reranked [entryA, entryB] fSemB).2 0 (by decide)⟩

/-! ### Helpers for the in-place re-ranking effect -/

theorem rerankMatching_map (p : MeritListEntry → Bool) {β : Type}
    (f : MeritListEntry → β) (hf : ∀ e r, f { e with rank := r } = f e)
    (k : Nat) (l : List MeritListEntry) :
    (rerankMatching p k l).map f = l.map f := by
  induction l generalizing k with
  | nil => rfl
  | cons e es ih =>
    by_cases hpe : p e = true <;> simp [rerankMatching, hpe, hf, ih]

theorem rerankMatching_filter_neg (p : MeritListEntry → Bool)
    (hp : ∀ e r, p { e with rank := r } = p e) (k : Nat)
    (l : List MeritListEntry) :
    (rerankMatching p k l).filter (fun e => !(p e))
      = l.filter (fun e => !(p e)) := by
  induction l generalizing k with
  | nil => rfl
  | cons e es ih =>
    by_cases hpe : p e = true <;>
      simp [rerankMatching, List.filter_cons, hpe, hp, ih]

theorem rerankMatching_idem (p : MeritListEntry → Bool)
    (hp : ∀ e r, p { e with rank := r } = p e) (k : Nat)
    (l : List MeritListEntry) :
    rerankMatching p k (rerankMatching p k l) = rerankMatching p k l := by
  induction l generalizing k with
  | nil => rfl
  | cons e es ih =>
    by_cases hpe : p e = true <;> simp [rerankMatching, hpe, hp, ih]

/-- C3 counterexample: running the filter on `[entryA(SemA, rank 1),
entryB(SemB, rank 2)]` with the SemB predicate mutates the surviving shared
entry object, so the input list is changed (entryB's rank becomes 1). -/
theorem filter_pure_counterexample :
    meritListAfterFilter [entryA, entryB] fSemB ≠ [entryA, entryB] := by decide

/-- C3 (amended): `filterMeritList` reads only the list and the predicates,
but its re-ranking pass mutates the rank field of each surviving entry of the
input list; every other field of every entry is unchanged, entries failing
the predicates are untouched entirely, and re-invocation with the same
predicates is idempotent. -/
theorem filter_mutates_only_surviving_ranks (l : List MeritListEntry)
    (f : Filters) :
    (meritListAfterFilter l f).map eraseRank = l.map eraseRank ∧
    (meritListAfterFilter l f).filter (fun e => !(activePred f e))
      = l.filter (fun e => !(activePred f e)) ∧
    meritListAfterFilter (meritListAfterFilter l f) f
      = meritListAfterFilter l f :=
  ⟨rerankMatching_map (activePred f) eraseRank (fun _ _ => rfl) 0 l,
    rerankMatching_filter_neg (activePred f) (fun _ _ => rfl) 0 l,
    rerankMatching_idem (activePred f) (fun _ _ => rfl) 0 l⟩

/-- C7 counterexample: with no predicates supplied, filtering is not the
identity on a list whose ranks are not already sequential (the re-ranking
pass overwrites the rank). -/
theorem no_predicate_identity_counterexample :
    filterMeritList [entryB] noFilters ≠ [entryB] := by decide

/-- C7 (amended): with no predicates supplied `filterMeritList` is the
identity exactly on lists whose ranks already equal the 1-based positions
(as `loadMeritList` produces); for any predicates, the output is (up to rank
renumbering) a sublist of the input and every output element satisfies all
supplied predicates AND-combined. -/
theorem filter_identity_and_subset (l : List MeritListEntry) (f : Filters) :
    ((∀ i (h : i < l.length), (l.get ⟨i, h⟩).rank = i + 1) →
      filterMeritList l noFilters = l) ∧
    List.Sublist ((filterMeritList l f).map eraseRank) (l.map eraseRank) ∧
    ∀ e ∈ filterMeritList l f, activePred f e = true := by
  refine ⟨?_, ?_, ?_⟩
  · intro h
    have hid : filterSteps l noFilters = l := by simp [filterSteps, noFilters]
    unfold filterMeritList assignRanks
    rw [hid]
    exact assignRanksFrom_of_seq 0 l (fun i hi => by
      have h2 := h i hi
      omega)
  · unfold filterMeritList assignRanks
    rw [map_assignRanksFrom eraseRank (fun _ _ => rfl), filterSteps_eq]
    exact List.Sublist.map eraseRank (List.filter_sublist l)
  · intro e he
    unfold filterMeritList assignRanks at he
    have h1 : eraseRank e ∈ (assignRanksFrom 0 (filterSteps l f)).map eraseRank :=
      List.mem_map_of_mem _ he
    rw [map_assignRanksFrom eraseRank (fun _ _ => rfl), filterSteps_eq] at h1
    obtain ⟨x, hx, hxe⟩ := List.mem_map.mp h1
    have hpx : activePred f x = true := (List.mem_filter.mp hx).2
    calc activePred f e = activePred f (eraseRank e) := rfl
      _ = activePred f (eraseRank x) := by rw [hxe]
      _ = activePred f x := rfl
      _ = true := hpx

theorem filter_identity_and_subset_witness :
    filterMeritList [entryA] noFilters = [entryA] ∧
    List.Sublist ((filterMeritList [entryA] fSemB).map eraseRank)
      ([entryA].map eraseRank) :=
  ⟨(filter_identity_and_subset [entryA] fSemB).1 (by decide),
    (filter_identity_and_subset [entryA] fSemB).2.1⟩

/-- C8 counterexample: a non-empty, non-numeric minimum-percentage bound is
not ignored: `parseFloat` yields NaN, every `>=` comparison against NaN is
false, and the whole list is filtered out instead of returned. -/
theorem invalid_bound_counterexample :
    filterMeritList [entryA] fMinBad = [] ∧
    filterMeritList [entryA] noFilters = [entryA] := by decide

/-- C8 (amended): an empty-string bound is an absent predicate, but a
non-empty bound with no numeric prefix (`parseFloat` NaN) makes the
corresponding comparison false for every entry, so `filterMeritList` returns
the empty list rather than the full remaining-predicates result. -/
theorem invalid_bound_filters_all (l : List MeritListEntry) (f : Filters) :
    (f.minPercentage ≠ "" → parseFloat f.minPercentage = none →
      filterMeritList l f = []) ∧
    (f.maxPercentage ≠ "" → parseFloat f.maxPercentage = none →
      filterMeritList l f = []) := by
  constructor
  · intro hne hnan
    have hg : ∀ x : List MeritListEntry,
        x.filter (fun e => geParsed e.percentage f.minPercentage) = [] := by
      intro x
      apply List.filter_eq_nil_iff.mpr
      intro a _
      simp [geParsed, hnan]
    simp [filterMeritList, filterSteps, hne, hg, assignRanks, assignRanksFrom]
  · intro hne hnan
    have hl : ∀ x : List MeritListEntry,
        x.filter (fun e => leParsed e.percentage f.maxPercentage) = [] := by
      intro x
      apply List.filter_eq_nil_iff.mpr
      intro a _
      simp [leParsed, hnan]
    simp [filterMeritList, filterSteps, hne, hl, assignRanks, assignRanksFrom]

theorem invalid_bound_filters_all_witness :
    filterMeritList [entryA] fMaxBad = [] :=
  (invalid_bound_filters_all [entryA] fMaxBad).2 (by decide) (by decide)

/-! ### Export row counts -/

theorem pdfEntryLines_length (y : Int) (pg : Nat) (l : List MeritListEntry) :
    (pdfEntryLines y pg l).length = l.length := by
  induction l generalizing y pg with
  | nil => rfl
  | cons e es ih =>
    simp only [pdfEntryLines]
    split <;> simp [ih]

/-- C9: the tabular export emits exactly one data row per input entry in
input order; the paginated print export emits exactly `min(input count, 30)`
entry lines (30 being the reference cap); an empty input yields zero data
rows in both. -/
theorem export_row_counts (l : List MeritListEntry) (sem : String) :
    (exportToExcel l).length = l.length ∧
    (∀ i : Nat, (exportToExcel l)[i]? = (l[i]?).map (fun e =>
      ExcelRow.mk e.rank e.student.name e.student.roll_number
        e.student.semester e.student.batch e.total_marks e.max_marks
        e.percentage)) ∧
    (exportToPDF sem l).length = min l.length 30 ∧
    exportToExcel ([] : List MeritListEntry) = [] ∧
    exportToPDF sem ([] : List MeritListEntry) = [] := by
  refine ⟨?_, ?_, ?_, rfl, rfl⟩
  · simp [exportToExcel]
  · intro i
    simp [exportToExcel, List.getElem?_map]
  · unfold exportToPDF
    rw [pdfEntryLines_length, List.length_take, Nat.min_comm]

/-- C10: after the marks-save flow, the persisted rows for the student's
`(student_id, semester)` are exactly the entered subject values strictly
greater than 0 (prior rows for that key are deleted first, zero/blank values
are never inserted); rows for every other key are untouched; and a student
whose entered values are all 0 ends up with no rows for that semester and is
absent from the merit list computed over the new table. -/
theorem saved_marks_exactly_positive_entries (table : List Mark) (s : Student)
    (md : List (String × Int)) (newId : Nat → String) :
    ((handleMarksSubmit table s md newId).filter
        (fun m => m.student_id == s.id && m.semester == s.semester)).map
      (fun m => (m.subject_id, m.marks))
      = md.filter (fun kv => kv.2 > 0) ∧
    (handleMarksSubmit table s md newId).filter
        (fun m => !(m.student_id == s.id && m.semester == s.semester))
      = table.filter
          (fun m => !(m.student_id == s.id && m.semester == s.semester)) ∧
    ((∀ kv ∈ md, ¬ (kv.2 > 0)) → ∀ (st : List Student) (sb : List Subject),
      s ∉ (loadMeritList st (handleMarksSubmit table s md newId) sb).map
        (fun e => e.student)) := by
  refine ⟨?_, ?_, ?_⟩
  · simp only [handleMarksSubmit, List.filter_append, List.filter_filter]
    have hdel : table.filter (fun m =>
        (m.student_id == s.id && m.semester == s.semester) &&
          !(m.student_id == s.id && m.semester == s.semester)) = [] := by
      apply List.filter_eq_nil_iff.mpr
      intro m _
      cases hb : (m.student_id == s.id && m.semester == s.semester) <;> simp [hb]
    have hins : ((marksToInsert md).enum.map (fun p =>
          Mark.mk (newId p.1) s.id p.2.1 p.2.2 s.semester)).filter
        (fun m => m.student_id == s.id && m.semester == s.semester)
        = (marksToInsert md).enum.map (fun p =>
          Mark.mk (newId p.1) s.id p.2.1 p.2.2 s.semester) := by
      apply List.filter_eq_self.mpr
      intro m hm
      obtain ⟨p, _, rfl⟩ := List.mem_map.mp hm
      simp
    rw [hdel, hins, List.nil_append, List.map_map]
    show ((marksToInsert md).enum.map Prod.snd) = md.filter (fun kv => kv.2 > 0)
    exact List.enumFrom_map_snd 0 (marksToInsert md)
  · simp only [handleMarksSubmit, List.filter_append, List.filter_filter]
    have hkeep : table.filter (fun m =>
        !(m.student_id == s.id && m.semester == s.semester) &&
          !(m.student_id == s.id && m.semester == s.semester))
        = table.filter
          (fun m => !(m.student_id == s.id && m.semester == s.semester)) := by
      apply List.filter_congr
      intro m _
      cases hb : (m.student_id == s.id && m.semester == s.semester) <;> simp [hb]
    have hins : ((marksToInsert md).enum.map (fun p =>
          Mark.mk (newId p.1) s.id p.2.1 p.2.2 s.semester)).filter
        (fun m => !(m.student_id == s.id && m.semester == s.semester)) = [] := by
      apply List.filter_eq_nil_iff.mpr
      intro m hm
      obtain ⟨p, _, rfl⟩ := List.mem_map.mp hm
      simp
    rw [hkeep, hins, List.append_nil]
  · intro hall st sb
    have hkept : marksToInsert md = [] := by
      apply List.filter_eq_nil_iff.mpr
      intro kv hkv
      simpa using hall kv hkv
    have htab : handleMarksSubmit table s md newId
        = table.filter
          (fun m => !(m.student_id == s.id && m.semester == s.semester)) := by
      simp [handleMarksSubmit, hkept]
    intro hmem
    rw [mem_student_loadMeritList] at hmem
    obtain ⟨hst, hne⟩ := hmem
    rw [semesterMarks_join_ne_nil] at hne
    obtain ⟨m, hm, hid, hsem, _⟩ := hne
    rw [htab] at hm
    have hneg := (List.mem_filter.mp hm).2
    simp [hid, hsem] at hneg

theorem saved_marks_exactly_positive_entries_witness :
    stuA ∉ (loadMeritList [stuA]
      (handleMarksSubmit [mark70] stuA [("sub1", 0)] (fun _ => "n")) []).map
        (fun e => e.student) :=
  (saved_marks_exactly_positive_entries [mark70] stuA [("sub1", 0)]
    (fun _ => "n")).2.2 (by decide) [stuA] []
